import Mathlib

/-!
Verification of the osvcad geometry core (`osvcad/geometry.py`).

The development shallowly embeds the module's three functions —
`transformation_from_2_anchors`, `transform_anchor` and `compound` —
over real-number arithmetic (the Python code computes with IEEE floats;
the contracts under study are stated "within numerical tolerance", which
over ℝ becomes exact equality).  The helper functions that `geometry.py`
imports from `osvcad.transformations` (`angle_between_vectors`,
`vector_product`, `translation_matrix`, `rotation_matrix`) are not part
of the sources under study and are modelled from the specification, as
marked on each definition.
-/

noncomputable section

open Real

/-- A 3-component real vector, the coordinate type used throughout
`geometry.py` (numpy arrays / tuples of length 3). -/
structure Vec3 where
  x : ℝ
  y : ℝ
  z : ℝ

namespace Vec3

@[ext] theorem ext_components {a b : Vec3} (hx : a.x = b.x) (hy : a.y = b.y)
    (hz : a.z = b.z) : a = b := by
  cases a; cases b; simp_all

instance : Zero Vec3 := ⟨⟨0, 0, 0⟩⟩

instance : Add Vec3 := ⟨fun a b => ⟨a.x + b.x, a.y + b.y, a.z + b.z⟩⟩

instance : Neg Vec3 := ⟨fun a => ⟨-a.x, -a.y, -a.z⟩⟩

instance : SMul ℝ Vec3 := ⟨fun c a => ⟨c * a.x, c * a.y, c * a.z⟩⟩

theorem zero_def : (0 : Vec3) = ⟨0, 0, 0⟩ := rfl

theorem add_def (a b : Vec3) : a + b = ⟨a.x + b.x, a.y + b.y, a.z + b.z⟩ := rfl

theorem neg_def (a : Vec3) : -a = ⟨-a.x, -a.y, -a.z⟩ := rfl

theorem smul_def (c : ℝ) (a : Vec3) : c • a = ⟨c * a.x, c * a.y, c * a.z⟩ := rfl

/-- Euclidean dot product (`numpy.dot` on 3-vectors). -/
def dot (a b : Vec3) : ℝ := a.x * b.x + a.y * b.y + a.z * b.z

/-- Euclidean norm (`numpy.linalg.norm` on 3-vectors). -/
def norm (a : Vec3) : ℝ := Real.sqrt (a.dot a)

theorem dot_self_nonneg (a : Vec3) : 0 ≤ a.dot a := by
  unfold dot
  nlinarith [mul_self_nonneg a.x, mul_self_nonneg a.y, mul_self_nonneg a.z]

theorem norm_nonneg' (a : Vec3) : 0 ≤ a.norm := Real.sqrt_nonneg _

theorem norm_sq (a : Vec3) : a.norm ^ 2 = a.dot a := by
  unfold norm; rw [Real.sq_sqrt (dot_self_nonneg a)]

theorem dot_self_pos {a : Vec3} (h : a ≠ 0) : 0 < a.dot a := by
  rcases lt_or_eq_of_le (dot_self_nonneg a) with hlt | heq
  · exact hlt
  · exfalso
    apply h
    have hx : a.x ^ 2 + a.y ^ 2 + a.z ^ 2 = 0 := by
      unfold dot at heq; nlinarith [sq_nonneg a.x, sq_nonneg a.y, sq_nonneg a.z]
    have hx0 : a.x = 0 := by nlinarith [sq_nonneg a.x, sq_nonneg a.y, sq_nonneg a.z]
    have hy0 : a.y = 0 := by nlinarith [sq_nonneg a.x, sq_nonneg a.y, sq_nonneg a.z]
    have hz0 : a.z = 0 := by nlinarith [sq_nonneg a.x, sq_nonneg a.y, sq_nonneg a.z]
    exact ext_components hx0 hy0 hz0

theorem norm_pos {a : Vec3} (h : a ≠ 0) : 0 < a.norm :=
  Real.sqrt_pos.mpr (dot_self_pos h)

theorem norm_ne_zero {a : Vec3} (h : a ≠ 0) : a.norm ≠ 0 :=
  ne_of_gt (norm_pos h)

theorem norm_zero' : (0 : Vec3).norm = 0 := by
  have h : (0 : Vec3).dot 0 = 0 := by unfold dot; simp [zero_def]
  unfold norm
  rw [h, Real.sqrt_zero]

theorem norm_smul' (c : ℝ) (a : Vec3) : (c • a).norm = |c| * a.norm := by
  have h : (c • a).dot (c • a) = c ^ 2 * a.dot a := by
    unfold dot; simp only [smul_def]; ring
  unfold norm
  rw [h, Real.sqrt_mul (sq_nonneg c), Real.sqrt_sq_eq_abs]

theorem norm_neg' (a : Vec3) : (-a).norm = a.norm := by
  have h : (-a).dot (-a) = a.dot a := by
    unfold dot; simp only [neg_def]; ring
  unfold norm
  rw [h]

end Vec3

/-- Modelled from the spec: `cross(u, v) -> Vec3`, the elementary cross
product supplied by the vector utilities (`osvcad.transformations.vector_product`,
not part of the sources under study). -/
def vector_product (a b : Vec3) : Vec3 :=
  ⟨a.y * b.z - a.z * b.y, a.z * b.x - a.x * b.z, a.x * b.y - a.y * b.x⟩

/-- Modelled from the spec: `angle_between(u, v) -> radians`, returning a value
in `[0, π]` (the arc cosine of the normalized dot product; the source's caller
guards against the degenerate NaN result with `math.isnan`, which over ℝ has no
counterpart — `Real.arccos` is total).
(`osvcad.transformations.angle_between_vectors`, not part of the sources under
study). -/
def angle_between_vectors (a b : Vec3) : ℝ :=
  Real.arccos (a.dot b / (a.norm * b.norm))

/-- Modelled from the spec: normalization of a vector
(`osvcad.transformations.unit_vector`, not part of the sources under study). -/
def unit_vector (v : Vec3) : Vec3 := (v.norm)⁻¹ • v

/-- A 4×4 homogeneous matrix (the shape produced by
`translation_matrix`/`rotation_matrix` and combined with `numpy.dot`). -/
structure Mat4 where
  m00 : ℝ
  m01 : ℝ
  m02 : ℝ
  m03 : ℝ
  m10 : ℝ
  m11 : ℝ
  m12 : ℝ
  m13 : ℝ
  m20 : ℝ
  m21 : ℝ
  m22 : ℝ
  m23 : ℝ
  m30 : ℝ
  m31 : ℝ
  m32 : ℝ
  m33 : ℝ

namespace Mat4

/-- Matrix product (`numpy.dot` of two 4×4 matrices). -/
def mul (A B : Mat4) : Mat4 where
  m00 := A.m00 * B.m00 + A.m01 * B.m10 + A.m02 * B.m20 + A.m03 * B.m30
  m01 := A.m00 * B.m01 + A.m01 * B.m11 + A.m02 * B.m21 + A.m03 * B.m31
  m02 := A.m00 * B.m02 + A.m01 * B.m12 + A.m02 * B.m22 + A.m03 * B.m32
  m03 := A.m00 * B.m03 + A.m01 * B.m13 + A.m02 * B.m23 + A.m03 * B.m33
  m10 := A.m10 * B.m00 + A.m11 * B.m10 + A.m12 * B.m20 + A.m13 * B.m30
  m11 := A.m10 * B.m01 + A.m11 * B.m11 + A.m12 * B.m21 + A.m13 * B.m31
  m12 := A.m10 * B.m02 + A.m11 * B.m12 + A.m12 * B.m22 + A.m13 * B.m32
  m13 := A.m10 * B.m03 + A.m11 * B.m13 + A.m12 * B.m23 + A.m13 * B.m33
  m20 := A.m20 * B.m00 + A.m21 * B.m10 + A.m22 * B.m20 + A.m23 * B.m30
  m21 := A.m20 * B.m01 + A.m21 * B.m11 + A.m22 * B.m21 + A.m23 * B.m31
  m22 := A.m20 * B.m02 + A.m21 * B.m12 + A.m22 * B.m22 + A.m23 * B.m32
  m23 := A.m20 * B.m03 + A.m21 * B.m13 + A.m22 * B.m23 + A.m23 * B.m33
  m30 := A.m30 * B.m00 + A.m31 * B.m10 + A.m32 * B.m20 + A.m33 * B.m30
  m31 := A.m30 * B.m01 + A.m31 * B.m11 + A.m32 * B.m21 + A.m33 * B.m31
  m32 := A.m30 * B.m02 + A.m31 * B.m12 + A.m32 * B.m22 + A.m33 * B.m32
  m33 := A.m30 * B.m03 + A.m31 * B.m13 + A.m32 * B.m23 + A.m33 * B.m33

/-- The 4×4 identity (`numpy.identity(4)`). -/
def identity : Mat4 :=
  ⟨1, 0, 0, 0, 0, 1, 0, 0, 0, 0, 1, 0, 0, 0, 0, 1⟩

/-- The action of the affine map encoded by a homogeneous matrix on a point
(rows 0–2 applied to `(v, 1)`). -/
def applyAffine (M : Mat4) (v : Vec3) : Vec3 :=
  ⟨M.m00 * v.x + M.m01 * v.y + M.m02 * v.z + M.m03,
   M.m10 * v.x + M.m11 * v.y + M.m12 * v.z + M.m13,
   M.m20 * v.x + M.m21 * v.y + M.m22 * v.z + M.m23⟩

/-- The action of the 3×3 linear block on a (direction) vector. -/
def applyLin (M : Mat4) (v : Vec3) : Vec3 :=
  ⟨M.m00 * v.x + M.m01 * v.y + M.m02 * v.z,
   M.m10 * v.x + M.m11 * v.y + M.m12 * v.z,
   M.m20 * v.x + M.m21 * v.y + M.m22 * v.z⟩

/-- The matrix is a genuine homogeneous affine matrix: its last row is
`(0, 0, 0, 1)`.  Every matrix built by the solver satisfies this. -/
def bordered (M : Mat4) : Prop :=
  M.m30 = 0 ∧ M.m31 = 0 ∧ M.m32 = 0 ∧ M.m33 = 1

end Mat4

/-- Modelled from the spec: `translation_matrix(t) -> Transform`, the 4×4
identity with the translation in the last column
(`osvcad.transformations.translation_matrix`, not part of the sources under
study). -/
def translation_matrix (t : Vec3) : Mat4 :=
  ⟨1, 0, 0, t.x, 0, 1, 0, t.y, 0, 0, 1, t.z, 0, 0, 0, 1⟩

/-- Modelled from the spec: `rotation_matrix(angle_radians, axis)` accepts axis
vectors of any nonzero length, normalizes internally, and follows the
right-hand rule about the given axis (the Rodrigues rotation matrix
`cos θ · I + (1 - cos θ) · ûûᵀ + sin θ · [û]ₓ` in homogeneous 4×4 form;
`osvcad.transformations.rotation_matrix`, not part of the sources under
study). -/
def rotation_matrix (θ : ℝ) (axis : Vec3) : Mat4 :=
  let u := unit_vector axis
  let c := Real.cos θ
  let s := Real.sin θ
  ⟨c + u.x * u.x * (1 - c), u.x * u.y * (1 - c) - u.z * s, u.x * u.z * (1 - c) + u.y * s, 0,
   u.y * u.x * (1 - c) + u.z * s, c + u.y * u.y * (1 - c), u.y * u.z * (1 - c) - u.x * s, 0,
   u.z * u.x * (1 - c) - u.y * s, u.z * u.y * (1 - c) + u.x * s, c + u.z * u.z * (1 - c), 0,
   0, 0, 0, 1⟩

/-- A 3×4 matrix: the first three rows of a homogeneous matrix, as produced by
numpy row slicing `[:3]` in `transformation_from_2_anchors`. -/
structure Mat34 where
  r00 : ℝ
  r01 : ℝ
  r02 : ℝ
  r03 : ℝ
  r10 : ℝ
  r11 : ℝ
  r12 : ℝ
  r13 : ℝ
  r20 : ℝ
  r21 : ℝ
  r22 : ℝ
  r23 : ℝ

namespace Mat4

/-- Row slicing `M[:3]` of a 4×4 matrix. -/
def rows3 (M : Mat4) : Mat34 :=
  ⟨M.m00, M.m01, M.m02, M.m03, M.m10, M.m11, M.m12, M.m13,
   M.m20, M.m21, M.m22, M.m23⟩

end Mat4

namespace Mat34

/-- Product (`numpy.dot`) of a 3×4 matrix with a 4×4 matrix, yielding a 3×4 matrix. -/
def mul4 (A : Mat34) (B : Mat4) : Mat34 where
  r00 := A.r00 * B.m00 + A.r01 * B.m10 + A.r02 * B.m20 + A.r03 * B.m30
  r01 := A.r00 * B.m01 + A.r01 * B.m11 + A.r02 * B.m21 + A.r03 * B.m31
  r02 := A.r00 * B.m02 + A.r01 * B.m12 + A.r02 * B.m22 + A.r03 * B.m32
  r03 := A.r00 * B.m03 + A.r01 * B.m13 + A.r02 * B.m23 + A.r03 * B.m33
  r10 := A.r10 * B.m00 + A.r11 * B.m10 + A.r12 * B.m20 + A.r13 * B.m30
  r11 := A.r10 * B.m01 + A.r11 * B.m11 + A.r12 * B.m21 + A.r13 * B.m31
  r12 := A.r10 * B.m02 + A.r11 * B.m12 + A.r12 * B.m22 + A.r13 * B.m32
  r13 := A.r10 * B.m03 + A.r11 * B.m13 + A.r12 * B.m23 + A.r13 * B.m33
  r20 := A.r20 * B.m00 + A.r21 * B.m10 + A.r22 * B.m20 + A.r23 * B.m30
  r21 := A.r20 * B.m01 + A.r21 * B.m11 + A.r22 * B.m21 + A.r23 * B.m31
  r22 := A.r20 * B.m02 + A.r21 * B.m12 + A.r22 * B.m22 + A.r23 * B.m32
  r23 := A.r20 * B.m03 + A.r21 * B.m13 + A.r22 * B.m23 + A.r23 * B.m33

/-- The 3×4 identity `[I | 0]` (the first three rows of the 4×4 identity). -/
def identity : Mat34 := Mat4.identity.rows3

end Mat34

/-- Python's float modulo `a % b` (sign follows the divisor), used by the
source as `-angle_anchors % np.pi`. -/
def pymod (a b : ℝ) : ℝ := a - b * (⌊a / b⌋ : ℤ)

/-- Degree-to-radian conversion (`numpy.radians`). -/
def radians (deg : ℝ) : ℝ := deg * (Real.pi / 180)

/-- An anchor record: the `{"position": ..., "direction": ...}` dictionaries of
`geometry.py`, as a value type. -/
structure Anchor where
  position : Vec3
  direction : Vec3

/-- Errors raised by the embedded functions: Python `AssertionError` (raised
explicitly in `transformation_from_2_anchors`) and `ValueError` (raised by
`compound`). -/
inductive GeomError
  | assertionError (msg : String)
  | valueError (msg : String)
deriving DecidableEq

/-- The world X axis `np.array([1., 0., 0.])` used by the degenerate branch. -/
def worldX : Vec3 := ⟨1, 0, 0⟩

/-- The world Y axis `np.array([0., 1., 0.])` used as fallback. -/
def worldY : Vec3 := ⟨0, 1, 0⟩

open Classical in
/-- The replacement rotation axis chosen by the degenerate (parallel
directions) branch of `transformation_from_2_anchors` (geometry.py lines
93–104): `k` is the world X axis unless `np.cross(X, master.direction)` is the
zero vector, in which case `k` is the world Y axis; the axis is
`np.cross(k, master.direction)`. -/
def degenerate_axis (dm : Vec3) : Vec3 :=
  let k := if vector_product worldX dm = 0 then worldY else worldX
  vector_product k dm

open Classical in
/-- The `angle_correction` computed inside the degenerate branch of
`transformation_from_2_anchors` (geometry.py lines 81–91): π when
`|master.direction + slave.direction| > |master.direction|` (directions
"point the same way"), otherwise 0.  Outside the degenerate branch the
correction stays 0. -/
def solver_angle_correction (dm ds : Vec3) : ℝ :=
  if vector_product dm ds = 0 then
    (if (dm + ds).norm > dm.norm then Real.pi else 0)
  else 0

open Classical in
/-- The rotation axis actually used by `transformation_from_2_anchors`:
`np.cross(master.direction, slave.direction)`, replaced by `degenerate_axis`
when that cross product is the zero vector. -/
def solver_axis (dm ds : Vec3) : Vec3 :=
  if vector_product dm ds = 0 then degenerate_axis dm else vector_product dm ds

/-- The opposition rotation angle of `transformation_from_2_anchors`:
`rot_angle = -angle_anchors % np.pi + angle_correction`. -/
def solver_rot_angle (dm ds : Vec3) : ℝ :=
  pymod (-(angle_between_vectors dm ds)) Real.pi + solver_angle_correction dm ds

/-- The value `unit_anchor_direction = [c / norm(direction) for c in direction]`
computed by `transformation_from_2_anchors`. -/
def unit_anchor_direction (dm : Vec3) : Vec3 :=
  ⟨dm.x / dm.norm, dm.y / dm.norm, dm.z / dm.norm⟩

/-- The matrix computed by `transformation_from_2_anchors` (geometry.py lines
28–142), i.e. the value the Python function returns when its explicit
unit-norm assertion does not fire.  Mirrors the source: the "opposition"
transform `T(pa) · R(rot_angle, axis) · T(-pb)` composed (on the left) with
the "free angle + distance" transform
`(T(pa + unit · distance) · R(radians angle, master.direction) · T(-pa))[:3]`. -/
def transformation_from_2_anchors_mat (anchor_master anchor_slave : Anchor)
    (angle distance : ℝ) : Mat34 :=
  let pa := anchor_master.position
  let pb := anchor_slave.position
  let dm := anchor_master.direction
  let ds := anchor_slave.direction
  let trans_slave_to_orig := -pb
  let axis_dir := solver_axis dm ds
  let rot_angle := solver_rot_angle dm ds
  let rot_matrix_anchors_opposition := rotation_matrix rot_angle axis_dir
  let trans_orig_to_master := pa
  let transformation_mat_anchors_opposition :=
    (translation_matrix trans_orig_to_master).mul
      (rot_matrix_anchors_opposition.mul (translation_matrix trans_slave_to_orig))
  let trans_master_to_orig := -pa
  let rot_matrix_around_anchor := rotation_matrix (radians angle) dm
  let unit := unit_anchor_direction dm
  let transformation_mat_near_anchor :=
    ((translation_matrix (pa + distance • unit)).mul
      (rot_matrix_around_anchor.mul (translation_matrix trans_master_to_orig))).rows3
  transformation_mat_near_anchor.mul4 transformation_mat_anchors_opposition

open Classical in
/-- The function `transformation_from_2_anchors` (geometry.py lines 28–142) with its
explicit failure path: it raises `AssertionError` ("Unit anchor direction norm
should be 1 +- tolerance") unless
`1 - 1e-6 <= norm(unit_anchor_direction) <= 1 + 1e-6`; otherwise it returns
the 3×4 matrix `transformation_from_2_anchors_mat`. -/
def transformation_from_2_anchors (anchor_master anchor_slave : Anchor)
    (angle distance : ℝ) : Except GeomError Mat34 :=
  let unit := unit_anchor_direction anchor_master.direction
  if 1 - 1e-6 ≤ unit.norm ∧ unit.norm ≤ 1 + 1e-6 then
    .ok (transformation_from_2_anchors_mat anchor_master anchor_slave angle distance)
  else
    .error (.assertionError ("Unit anchor direction norm should be 1 +- tolerance"))

/-- The function `transform_anchor` (geometry.py lines 145–170): the translation vector is
the last column of the 3×4 matrix (`matrix.T[-1:, :3][0]`), the linear block
is `matrix[:3, :3]`; the position is sent through the full affine map
(`np.dot(p, matrix_3x3.T) + translation_vec`) and the direction through the
linear block only (`np.dot(d, matrix_3x3.T)`). -/
def transform_anchor (anchor : Anchor) (transformation_matrix : Mat34) : Anchor :=
  let M := transformation_matrix
  let p := anchor.position
  let d := anchor.direction
  { position := ⟨p.x * M.r00 + p.y * M.r01 + p.z * M.r02 + M.r03,
                 p.x * M.r10 + p.y * M.r11 + p.z * M.r12 + M.r13,
                 p.x * M.r20 + p.y * M.r21 + p.z * M.r22 + M.r23⟩,
    direction := ⟨d.x * M.r00 + d.y * M.r01 + d.z * M.r02,
                  d.x * M.r10 + d.y * M.r11 + d.z * M.r12,
                  d.x * M.r20 + d.y * M.r21 + d.z * M.r22⟩ }

/-- A value handed to `compound`: either an instance of `ccad.model.Shape`
(an opaque solid handle, represented by its underlying `TopoDS` payload) or
any other Python object.  `ccad` is an external collaborator of the module;
only the `isinstance(shape, Shape)` distinction and the `.shape` payload are
observable in `geometry.py`. -/
inductive CcadObj
  | shape (payload : Nat)
  | nonShape (payload : Nat)
deriving DecidableEq

/-- The check `isinstance(shape, ccad.model.Shape)`. -/
def CcadObj.isShape : CcadObj → Bool
  | .shape _ => true
  | .nonShape _ => false

/-- The `.shape` attribute read by the builder loop. -/
def CcadObj.shapeHandle : CcadObj → Nat
  | .shape p => p
  | .nonShape p => p

/-- The `ccad.model.Solid` built from the `TopoDS_Compound` that accumulated
the input shapes, represented by the list of accumulated payloads. -/
structure OsvSolid where
  parts : List Nat
deriving DecidableEq

/-- The function `compound` (geometry.py lines 173–196): first a checking loop raising
`ValueError` if any element is not a `ccad.model.Shape`, then a building loop
adding every `shape.shape` to a fresh `TopoDS_Compound`, returned as a
`ccad.model.Solid`. -/
def compound (shapes : List CcadObj) : Except GeomError OsvSolid :=
  if shapes.all CcadObj.isShape then
    .ok ⟨shapes.map CcadObj.shapeHandle⟩
  else
    .error (.valueError ("The shapes list should only contains ccad.model.Shape(s)"))

/-- A Python anchor dictionary: string keys to 3-vector values, as passed to
`transformation_from_2_anchors` in the source. -/
def AnchorDict : Type := List (String × Vec3)

/-- Subscript access `d["k"]` on an anchor dictionary (`none` models the
`KeyError` path). -/
def AnchorDict.get (d : AnchorDict) (k : String) : Option Vec3 :=
  List.lookup k d

/-- The dict-level entry point of `transformation_from_2_anchors`: the source
reads exactly `anchor_master["position"]`, `anchor_master["direction"]`,
`anchor_slave["position"]` and `anchor_slave["direction"]` and nothing else
from its anchor arguments. -/
def transformation_from_2_anchors_dict (anchor_master anchor_slave : AnchorDict)
    (angle distance : ℝ) : Option (Except GeomError Mat34) :=
  match anchor_master.get ("position"), anchor_master.get ("direction"),
        anchor_slave.get ("position"), anchor_slave.get ("direction") with
  | some pa, some dm, some pb, some ds =>
      some (transformation_from_2_anchors ⟨pa, dm⟩ ⟨pb, ds⟩ angle distance)
  | _, _, _, _ => none

/-- Written from the spec's words for comparison ("transforms `position` by
the full affine map"): the affine action of a 3×4 transform on a point. -/
def spec_full_affine_map (M : Mat34) (v : Vec3) : Vec3 :=
  ⟨M.r00 * v.x + M.r01 * v.y + M.r02 * v.z + M.r03,
   M.r10 * v.x + M.r11 * v.y + M.r12 * v.z + M.r13,
   M.r20 * v.x + M.r21 * v.y + M.r22 * v.z + M.r23⟩

/-- Written from the spec's words for comparison ("transforms ... `direction`
by the rotation block only (no translation applied to a direction vector)"):
the action of the 3×3 rotation block alone. -/
def spec_rotation_block_map (M : Mat34) (v : Vec3) : Vec3 :=
  ⟨M.r00 * v.x + M.r01 * v.y + M.r02 * v.z,
   M.r10 * v.x + M.r11 * v.y + M.r12 * v.z,
   M.r20 * v.x + M.r21 * v.y + M.r22 * v.z⟩

open Classical in
/-- Written from the claim's words for comparison (claim C6: "the rotation
axis used is the cross of master.direction with the world X axis, unless that
cross is itself the zero vector, in which case the world Y axis is used as
the other operand"). -/
def claimed_degenerate_axis (dm : Vec3) : Vec3 :=
  if vector_product dm worldX = 0 then vector_product dm worldY
  else vector_product dm worldX

/-- The Rodrigues rotation action on a vector: what the linear block of
`rotation_matrix θ axis` does to `v`. -/
def rotApply (θ : ℝ) (axis v : Vec3) : Vec3 :=
  Real.cos θ • v + Real.sin θ • vector_product (unit_vector axis) v
    + ((1 - Real.cos θ) * (unit_vector axis).dot v) • unit_vector axis

/-! ### Infrastructure lemmas on the matrix embedding -/

namespace Mat4

theorem bordered_translation (t : Vec3) : (translation_matrix t).bordered := by
  refine ⟨rfl, rfl, rfl, rfl⟩

theorem bordered_rotation (θ : ℝ) (axis : Vec3) : (rotation_matrix θ axis).bordered := by
  refine ⟨rfl, rfl, rfl, rfl⟩

theorem bordered_mul {A B : Mat4} (hA : A.bordered) (hB : B.bordered) :
    (A.mul B).bordered := by
  obtain ⟨a0, a1, a2, a3⟩ := hA
  obtain ⟨b0, b1, b2, b3⟩ := hB
  refine ⟨?_, ?_, ?_, ?_⟩ <;>
    simp only [mul, a0, a1, a2, a3, b0, b1, b2, b3] <;> ring

theorem applyAffine_mul (A : Mat4) {B : Mat4} (hB : B.bordered) (v : Vec3) :
    (A.mul B).applyAffine v = A.applyAffine (B.applyAffine v) := by
  obtain ⟨b0, b1, b2, b3⟩ := hB
  apply Vec3.ext_components <;>
    simp only [mul, applyAffine, b0, b1, b2, b3] <;> ring

theorem applyLin_mul (A : Mat4) {B : Mat4} (hB : B.bordered) (v : Vec3) :
    (A.mul B).applyLin v = A.applyLin (B.applyLin v) := by
  obtain ⟨b0, b1, b2, b3⟩ := hB
  apply Vec3.ext_components <;>
    simp only [mul, applyLin, b0, b1, b2, b3] <;> ring

end Mat4

theorem translation_applyAffine (t v : Vec3) :
    (translation_matrix t).applyAffine v = v + t := by
  apply Vec3.ext_components <;>
    simp only [translation_matrix, Mat4.applyAffine, Vec3.add_def] <;> ring

theorem translation_applyLin (t v : Vec3) :
    (translation_matrix t).applyLin v = v := by
  apply Vec3.ext_components <;>
    simp only [translation_matrix, Mat4.applyLin] <;> ring

theorem rotation_applyLin (θ : ℝ) (axis v : Vec3) :
    (rotation_matrix θ axis).applyLin v = rotApply θ axis v := by
  apply Vec3.ext_components <;>
    simp only [rotation_matrix, Mat4.applyLin, rotApply, vector_product,
      Vec3.add_def, Vec3.smul_def, Vec3.dot] <;> ring

theorem rotation_applyAffine (θ : ℝ) (axis v : Vec3) :
    (rotation_matrix θ axis).applyAffine v = rotApply θ axis v := by
  apply Vec3.ext_components <;>
    simp only [rotation_matrix, Mat4.applyAffine, rotApply, vector_product,
      Vec3.add_def, Vec3.smul_def, Vec3.dot] <;> ring

theorem rotApply_zero_vec (θ : ℝ) (axis : Vec3) : rotApply θ axis 0 = 0 := by
  apply Vec3.ext_components <;>
    simp only [rotApply, vector_product, Vec3.add_def, Vec3.smul_def,
      Vec3.dot, Vec3.zero_def] <;> ring

theorem translation_mul_translation (a b : Vec3) :
    (translation_matrix a).mul (translation_matrix b) = translation_matrix (a + b) := by
  simp only [translation_matrix, Mat4.mul, Vec3.add_def]
  congr 1 <;> ring

theorem translation_zero : translation_matrix 0 = Mat4.identity := by
  simp only [translation_matrix, Mat4.identity, Vec3.zero_def]

theorem rotation_matrix_zero (axis : Vec3) :
    rotation_matrix 0 axis = Mat4.identity := by
  simp only [rotation_matrix, Mat4.identity, Real.cos_zero, Real.sin_zero]
  congr 1 <;> ring

theorem Mat4.mul_identity (A : Mat4) : A.mul Mat4.identity = A := by
  simp only [Mat4.mul, Mat4.identity]
  congr 1 <;> ring

theorem Mat4.identity_mul (A : Mat4) : Mat4.identity.mul A = A := by
  simp only [Mat4.mul, Mat4.identity]
  congr 1 <;> ring

theorem rows3_mul4 (M N : Mat4) : (M.rows3).mul4 N = (M.mul N).rows3 := by
  simp only [Mat4.rows3, Mat34.mul4, Mat4.mul]

/-- Applying `transform_anchor` with the sliced rows of a homogeneous matrix is the
affine action on the position and the linear action on the direction. -/
theorem transform_anchor_rows3 (a : Anchor) (K : Mat4) :
    transform_anchor a K.rows3
      = ⟨K.applyAffine a.position, K.applyLin a.direction⟩ := by
  simp only [transform_anchor, Mat4.rows3, Mat4.applyAffine, Mat4.applyLin]
  congr 1 <;> apply Vec3.ext_components <;> dsimp <;> ring

namespace Vec3

theorem add_neg_self' (a : Vec3) : a + -a = 0 := by
  apply ext_components <;> simp only [add_def, neg_def, zero_def] <;> ring

theorem zero_add' (a : Vec3) : 0 + a = a := by
  apply ext_components <;> simp only [add_def, zero_def] <;> ring

theorem add_zero' (a : Vec3) : a + 0 = a := by
  apply ext_components <;> simp only [add_def, zero_def] <;> ring

theorem zero_smul' (a : Vec3) : (0 : ℝ) • a = 0 := by
  apply ext_components <;> simp only [smul_def, zero_def] <;> ring

end Vec3

theorem unit_anchor_direction_eq_smul (dm : Vec3) :
    unit_anchor_direction dm = (dm.norm)⁻¹ • dm := by
  apply Vec3.ext_components <;>
    simp only [unit_anchor_direction, Vec3.smul_def] <;>
    rw [div_eq_inv_mul]

theorem unit_anchor_direction_norm {dm : Vec3} (h : dm ≠ 0) :
    (unit_anchor_direction dm).norm = 1 := by
  rw [unit_anchor_direction_eq_smul, Vec3.norm_smul',
    abs_of_pos (inv_pos.mpr (Vec3.norm_pos h)),
    inv_mul_cancel₀ (Vec3.norm_ne_zero h)]

theorem unit_anchor_direction_zero : unit_anchor_direction 0 = 0 := by
  apply Vec3.ext_components <;>
    simp [unit_anchor_direction, Vec3.zero_def]

/-- When `master.direction` is nonzero, the explicit unit-norm assertion in
`transformation_from_2_anchors` passes and the function returns its matrix. -/
theorem transformation_from_2_anchors_ok {m : Anchor} (s : Anchor)
    (angle distance : ℝ) (hm : m.direction ≠ 0) :
    transformation_from_2_anchors m s angle distance
      = .ok (transformation_from_2_anchors_mat m s angle distance) := by
  unfold transformation_from_2_anchors
  rw [if_pos]
  constructor <;> rw [unit_anchor_direction_norm hm] <;> norm_num

/-- When `master.direction` is the zero vector, the explicit unit-norm
assertion in `transformation_from_2_anchors` fires. -/
theorem transformation_from_2_anchors_err {m : Anchor} (s : Anchor)
    (angle distance : ℝ) (hm : m.direction = 0) :
    transformation_from_2_anchors m s angle distance
      = .error (.assertionError
          "Unit anchor direction norm should be 1 +- tolerance") := by
  unfold transformation_from_2_anchors
  rw [if_neg]
  rw [hm, unit_anchor_direction_zero, Vec3.norm_zero']
  intro hcon
  have h1 := hcon.1
  norm_num at h1

/-- The affine action of a sandwich `T(c) · R(θ, ax) · T(b)`. -/
theorem sandwich_applyAffine (c b : Vec3) (θ : ℝ) (ax v : Vec3) :
    ((translation_matrix c).mul
      ((rotation_matrix θ ax).mul (translation_matrix b))).applyAffine v
      = rotApply θ ax (v + b) + c := by
  rw [Mat4.applyAffine_mul _
      (Mat4.bordered_mul (Mat4.bordered_rotation _ _) (Mat4.bordered_translation _)),
    Mat4.applyAffine_mul _ (Mat4.bordered_translation _),
    translation_applyAffine, rotation_applyAffine, translation_applyAffine]

/-- The linear action of a sandwich `T(c) · R(θ, ax) · T(b)`. -/
theorem sandwich_applyLin (c b : Vec3) (θ : ℝ) (ax v : Vec3) :
    ((translation_matrix c).mul
      ((rotation_matrix θ ax).mul (translation_matrix b))).applyLin v
      = rotApply θ ax v := by
  rw [Mat4.applyLin_mul _
      (Mat4.bordered_mul (Mat4.bordered_rotation _ _) (Mat4.bordered_translation _)),
    Mat4.applyLin_mul _ (Mat4.bordered_translation _),
    translation_applyLin, rotation_applyLin, translation_applyLin]

/-- What the matrix returned by `transformation_from_2_anchors` does to the
slave anchor: the position lands on
`master.position + distance • normalize(master.direction)` (exactly, because
both rotations fix the origin), and the direction is the slave direction
rotated first by the opposition rotation and then about the master axis. -/
theorem transform_anchor_solve_mat (m s : Anchor) (angle distance : ℝ) :
    transform_anchor s (transformation_from_2_anchors_mat m s angle distance)
      = ⟨m.position + distance • unit_anchor_direction m.direction,
         rotApply (radians angle) m.direction
           (rotApply (solver_rot_angle m.direction s.direction)
             (solver_axis m.direction s.direction) s.direction)⟩ := by
  unfold transformation_from_2_anchors_mat
  have hbO : ((translation_matrix m.position).mul
      ((rotation_matrix (solver_rot_angle m.direction s.direction)
        (solver_axis m.direction s.direction)).mul
        (translation_matrix (-s.position)))).bordered :=
    Mat4.bordered_mul (Mat4.bordered_translation _)
      (Mat4.bordered_mul (Mat4.bordered_rotation _ _) (Mat4.bordered_translation _))
  rw [rows3_mul4, transform_anchor_rows3]
  congr 1
  · -- position: both rotations fix the origin
    have hin : ((translation_matrix m.position).mul
        ((rotation_matrix (solver_rot_angle m.direction s.direction)
          (solver_axis m.direction s.direction)).mul
          (translation_matrix (-s.position)))).applyAffine s.position
        = m.position := by
      rw [sandwich_applyAffine, Vec3.add_neg_self', rotApply_zero_vec,
        Vec3.zero_add']
    rw [Mat4.applyAffine_mul _ hbO, hin, sandwich_applyAffine,
      Vec3.add_neg_self', rotApply_zero_vec, Vec3.zero_add']
  · -- direction: translations act as the identity on the linear block
    rw [Mat4.applyLin_mul _ hbO, sandwich_applyLin, sandwich_applyLin]

/-! ### Vector algebra facts used by the opposition-rotation analysis -/

theorem vector_product_dot_right (a b : Vec3) : (vector_product a b).dot b = 0 := by
  simp only [vector_product, Vec3.dot]; ring

theorem vector_product_dot_left (a b : Vec3) : (vector_product a b).dot a = 0 := by
  simp only [vector_product, Vec3.dot]; ring

/-- Lagrange's identity: `‖a × b‖² = ‖a‖²‖b‖² − (a·b)²`. -/
theorem vector_product_lagrange (a b : Vec3) :
    (vector_product a b).dot (vector_product a b)
      = a.dot a * b.dot b - (a.dot b) ^ 2 := by
  simp only [vector_product, Vec3.dot]; ring

/-- The cross product of two vectors is zero exactly when `a = 0` implies it:
a helper showing a zero first factor gives a zero cross product. -/
theorem vector_product_zero_left (b : Vec3) : vector_product 0 b = 0 := by
  apply Vec3.ext_components <;> simp [vector_product, Vec3.zero_def]

theorem vector_product_zero_right (a : Vec3) : vector_product a 0 = 0 := by
  apply Vec3.ext_components <;> simp [vector_product, Vec3.zero_def]

/-- Python float modulo: for `0 < a < b`, `(-a) % b = b - a`. -/
theorem pymod_neg_of_lt {a b : ℝ} (h0 : 0 < a) (hb : a < b) :
    pymod (-a) b = b - a := by
  have hbpos : (0 : ℝ) < b := lt_trans h0 hb
  have hfl : ⌊(-a) / b⌋ = -1 := by
    rw [Int.floor_eq_iff]
    constructor
    · push_cast
      rw [le_div_iff hbpos]
      nlinarith
    · push_cast
      rw [div_lt_iff hbpos]
      nlinarith
  unfold pymod
  rw [hfl]
  push_cast
  ring

/-- Rotation about an axis fixes every multiple of that axis. -/
theorem rotApply_smul_axis (θ : ℝ) {dm : Vec3} (h : dm ≠ 0) (c : ℝ) :
    rotApply θ dm (c • dm) = c • dm := by
  have hn : dm.norm ≠ 0 := Vec3.norm_ne_zero h
  have hsq : dm.norm ^ 2 = dm.x ^ 2 + dm.y ^ 2 + dm.z ^ 2 := by
    rw [Vec3.norm_sq]; simp only [Vec3.dot]; ring
  refine Vec3.ext_components ?_ ?_ ?_ <;>
    simp only [rotApply, unit_vector, vector_product, Vec3.add_def,
      Vec3.smul_def, Vec3.dot] <;>
    field_simp
  · linear_combination ((Real.cos θ - 1) * c * dm.x * dm.norm) * hsq
  · linear_combination ((Real.cos θ - 1) * c * dm.y * dm.norm) * hsq
  · linear_combination ((Real.cos θ - 1) * c * dm.z * dm.norm) * hsq

theorem Vec3.dot_smul_left (c : ℝ) (a b : Vec3) : (c • a).dot b = c * a.dot b := by
  simp only [Vec3.smul_def, Vec3.dot]; ring

theorem vector_product_smul_left (c : ℝ) (a b : Vec3) :
    vector_product (c • a) b = c • vector_product a b := by
  apply Vec3.ext_components <;>
    simp only [vector_product, Vec3.smul_def] <;> ring

/-- The vector triple product `(a × b) × b = (a·b) b − (b·b) a`. -/
theorem vector_product_triple_right (a b : Vec3) :
    vector_product (vector_product a b) b
      = (a.dot b) • b + (-(b.dot b)) • a := by
  apply Vec3.ext_components <;>
    simp only [vector_product, Vec3.smul_def, Vec3.add_def, Vec3.dot] <;> ring

theorem Vec3.smul_smul' (c d : ℝ) (v : Vec3) : c • (d • v) = (c * d) • v := by
  apply Vec3.ext_components <;> simp only [Vec3.smul_def] <;> ring

/-- Rotating the slave direction by the opposition angle
`(-angle_between) mod π` about the cross-product axis lands exactly on the
anti-parallel multiple of the master direction of the slave direction's
length (non-collinear case). -/
theorem rotApply_opposition {dm ds : Vec3} (h : vector_product dm ds ≠ 0) :
    rotApply (solver_rot_angle dm ds) (solver_axis dm ds) ds
      = (-(ds.norm / dm.norm)) • dm := by
  have hdm : dm ≠ 0 := by
    intro h0; exact h (by rw [h0]; exact vector_product_zero_left ds)
  have hds : ds ≠ 0 := by
    intro h0; exact h (by rw [h0]; exact vector_product_zero_right dm)
  have hnm : dm.norm ≠ 0 := Vec3.norm_ne_zero hdm
  have hns : ds.norm ≠ 0 := Vec3.norm_ne_zero hds
  have hnmpos : 0 < dm.norm := Vec3.norm_pos hdm
  have hnspos : 0 < ds.norm := Vec3.norm_pos hds
  have hnc : (vector_product dm ds).norm ≠ 0 := Vec3.norm_ne_zero h
  have hncpos : 0 < (vector_product dm ds).norm := Vec3.norm_pos h
  have hax : solver_axis dm ds = vector_product dm ds := if_neg h
  have hcor : solver_angle_correction dm ds = 0 := if_neg h
  have hnc2 : (vector_product dm ds).norm ^ 2
      = dm.norm ^ 2 * ds.norm ^ 2 - (dm.dot ds) ^ 2 := by
    rw [Vec3.norm_sq, Vec3.norm_sq, Vec3.norm_sq, vector_product_lagrange]
  have hDlt : (dm.dot ds) ^ 2 < (dm.norm * ds.norm) ^ 2 := by
    nlinarith [pow_pos hncpos 2, hnc2]
  have hprodpos : 0 < dm.norm * ds.norm := mul_pos hnmpos hnspos
  have hx1 : -1 < dm.dot ds / (dm.norm * ds.norm) := by
    rw [lt_div_iff hprodpos]; nlinarith [hDlt, hprodpos]
  have hx2 : dm.dot ds / (dm.norm * ds.norm) < 1 := by
    rw [div_lt_one hprodpos]; nlinarith [hDlt, hprodpos]
  have haP : 0 < angle_between_vectors dm ds := by
    unfold angle_between_vectors; exact Real.arccos_pos.mpr hx2
  have haL : angle_between_vectors dm ds < Real.pi := by
    unfold angle_between_vectors
    refine lt_of_le_of_ne (Real.arccos_le_pi _) ?_
    intro heq
    exact absurd (Real.arccos_eq_pi.mp heq) (not_le.mpr hx1)
  have hrot : solver_rot_angle dm ds
      = Real.pi - angle_between_vectors dm ds := by
    unfold solver_rot_angle
    rw [hcor, pymod_neg_of_lt haP haL, add_zero]
  have hcos : Real.cos (solver_rot_angle dm ds)
      = -(dm.dot ds / (dm.norm * ds.norm)) := by
    rw [hrot, Real.cos_pi_sub]
    unfold angle_between_vectors
    rw [Real.cos_arccos (le_of_lt hx1) (le_of_lt hx2)]
  have hsin : Real.sin (solver_rot_angle dm ds)
      = (vector_product dm ds).norm / (dm.norm * ds.norm) := by
    rw [hrot, Real.sin_pi_sub]
    unfold angle_between_vectors
    rw [Real.sin_arccos]
    have h1 : 1 - (dm.dot ds / (dm.norm * ds.norm)) ^ 2
        = ((vector_product dm ds).norm / (dm.norm * ds.norm)) ^ 2 := by
      field_simp
      linear_combination -hnc2
    rw [h1, Real.sqrt_sq (by positivity)]
  rw [hax]
  unfold rotApply
  rw [hcos, hsin]
  have hu0 : (unit_vector (vector_product dm ds)).dot ds = 0 := by
    unfold unit_vector
    rw [Vec3.dot_smul_left, vector_product_dot_right, mul_zero]
  rw [hu0, mul_zero, Vec3.zero_smul', Vec3.add_zero']
  unfold unit_vector
  rw [vector_product_smul_left, Vec3.smul_smul', vector_product_triple_right]
  have hns2p : ds.norm ^ 2 = ds.x ^ 2 + ds.y ^ 2 + ds.z ^ 2 := by
    rw [Vec3.norm_sq]; simp only [Vec3.dot]; ring
  refine Vec3.ext_components ?_ ?_ ?_ <;>
    simp only [Vec3.smul_def, Vec3.add_def, Vec3.dot] <;>
    field_simp
  · linear_combination
      (dm.x * dm.norm ^ 2 * ds.norm * (vector_product dm ds).norm) * hns2p
  · linear_combination
      (dm.y * dm.norm ^ 2 * ds.norm * (vector_product dm ds).norm) * hns2p
  · linear_combination
      (dm.z * dm.norm ^ 2 * ds.norm * (vector_product dm ds).norm) * hns2p

/-! ### Non-zero witnesses for concrete vectors -/

theorem vec001_ne_zero : (⟨0, 0, 1⟩ : Vec3) ≠ 0 := by
  intro h
  exact one_ne_zero (congrArg Vec3.z h)

theorem vec100_ne_zero : (⟨1, 0, 0⟩ : Vec3) ≠ 0 := by
  intro h
  exact one_ne_zero (congrArg Vec3.x h)

/-! ### Claims -/

/-- C1 — Position (mating) contract: for every pair of anchors with non-zero
directions, `transformation_from_2_anchors` succeeds and applying the returned
transform to the slave anchor maps the slave anchor's position exactly to
`master.position + distance • normalize(master.direction)`. -/
theorem claim_C1_position_contract (m s : Anchor) (angle distance : ℝ)
    (hm : m.direction ≠ 0) (hs : s.direction ≠ 0) :
    transformation_from_2_anchors m s angle distance
      = .ok (transformation_from_2_anchors_mat m s angle distance)
    ∧ (transform_anchor s
        (transformation_from_2_anchors_mat m s angle distance)).position
      = m.position + distance • ((m.direction.norm)⁻¹ • m.direction) := by
  refine ⟨transformation_from_2_anchors_ok s angle distance hm, ?_⟩
  rw [transform_anchor_solve_mat, unit_anchor_direction_eq_smul]

/-- Witness for C1 at a concrete non-degenerate input. -/
theorem claim_C1_position_contract_witness :
    (⟨0, 0, 1⟩ : Vec3) ≠ 0 ∧ (⟨1, 0, 0⟩ : Vec3) ≠ 0 ∧
    (transformation_from_2_anchors ⟨⟨0, 0, 0⟩, ⟨0, 0, 1⟩⟩ ⟨⟨1, 2, 3⟩, ⟨1, 0, 0⟩⟩ 0 2
        = .ok (transformation_from_2_anchors_mat ⟨⟨0, 0, 0⟩, ⟨0, 0, 1⟩⟩
            ⟨⟨1, 2, 3⟩, ⟨1, 0, 0⟩⟩ 0 2)
      ∧ (transform_anchor ⟨⟨1, 2, 3⟩, ⟨1, 0, 0⟩⟩
          (transformation_from_2_anchors_mat ⟨⟨0, 0, 0⟩, ⟨0, 0, 1⟩⟩
            ⟨⟨1, 2, 3⟩, ⟨1, 0, 0⟩⟩ 0 2)).position
        = ⟨0, 0, 0⟩ + (2 : ℝ) • (((⟨0, 0, 1⟩ : Vec3).norm)⁻¹ • ⟨0, 0, 1⟩)) :=
  ⟨vec001_ne_zero, vec100_ne_zero,
    claim_C1_position_contract ⟨⟨0, 0, 0⟩, ⟨0, 0, 1⟩⟩ ⟨⟨1, 2, 3⟩, ⟨1, 0, 0⟩⟩ 0 2
      vec001_ne_zero vec100_ne_zero⟩

/-! ### Evaluation helpers for concrete and mated inputs -/

theorem Vec3.dot_neg_right (a b : Vec3) : a.dot (-b) = -(a.dot b) := by
  simp only [Vec3.dot, Vec3.neg_def]; ring

theorem vector_product_neg_self (a : Vec3) : vector_product a (-a) = 0 := by
  apply Vec3.ext_components <;>
    simp only [vector_product, Vec3.neg_def, Vec3.zero_def] <;> ring

/-- Compute a norm from a square decomposition of the dot product. -/
theorem Vec3.norm_eq (a : Vec3) (r : ℝ) (h0 : 0 ≤ r) (h : a.dot a = r ^ 2) :
    a.norm = r := by
  unfold Vec3.norm
  rw [h, Real.sqrt_sq h0]

theorem rotApply_zero_angle (axis v : Vec3) : rotApply 0 axis v = v := by
  apply Vec3.ext_components <;>
    simp only [rotApply, unit_vector, vector_product, Vec3.add_def,
      Vec3.smul_def, Vec3.dot, Real.cos_zero, Real.sin_zero] <;> ring

theorem radians_zero : radians 0 = 0 := by
  unfold radians; ring

theorem floor_neg_one_real : ⌊(-1 : ℝ)⌋ = -1 := by
  rw [show (-1 : ℝ) = ((-1 : ℤ) : ℝ) by norm_num, Int.floor_intCast]

theorem pymod_neg_pi : pymod (-Real.pi) Real.pi = 0 := by
  unfold pymod
  rw [show -Real.pi / Real.pi = -1 by
    rw [neg_div, div_self Real.pi_ne_zero], floor_neg_one_real]
  push_cast
  ring

theorem angle_between_neg_self {dm : Vec3} (h : dm ≠ 0) :
    angle_between_vectors dm (-dm) = Real.pi := by
  unfold angle_between_vectors
  have hq : dm.dot (-dm) / (dm.norm * (-dm).norm) = -1 := by
    rw [Vec3.dot_neg_right, Vec3.norm_neg', ← Vec3.norm_sq]
    field_simp [Vec3.norm_ne_zero h]
    ring
  rw [hq, Real.arccos_neg_one]

theorem transform_anchor_identity (a : Anchor) :
    transform_anchor a Mat34.identity = a := by
  cases a with
  | mk p d =>
    simp only [transform_anchor, Mat34.identity, Mat4.rows3, Mat4.identity]
    congr 1 <;> apply Vec3.ext_components <;> dsimp <;> ring

theorem norm_001 : (⟨0, 0, 1⟩ : Vec3).norm = 1 :=
  Vec3.norm_eq _ 1 (by norm_num) (by unfold Vec3.dot; norm_num)

theorem norm_00m3 : (⟨0, 0, -3⟩ : Vec3).norm = 3 :=
  Vec3.norm_eq _ 3 (by norm_num) (by unfold Vec3.dot; norm_num)

theorem norm_0m10 : (⟨0, -1, 0⟩ : Vec3).norm = 1 :=
  Vec3.norm_eq _ 1 (by norm_num) (by unfold Vec3.dot; norm_num)

theorem norm_00m2 : (⟨0, 0, -2⟩ : Vec3).norm = 2 :=
  Vec3.norm_eq _ 2 (by norm_num) (by unfold Vec3.dot; norm_num)

theorem cross_001_00m3 : vector_product ⟨0, 0, 1⟩ ⟨0, 0, -3⟩ = 0 := by
  apply Vec3.ext_components <;>
    simp only [vector_product, Vec3.zero_def] <;> norm_num

theorem cross_X_001 : vector_product worldX ⟨0, 0, 1⟩ = ⟨0, -1, 0⟩ := by
  apply Vec3.ext_components <;>
    simp only [vector_product, worldX] <;> norm_num

theorem cross_X_001_ne_zero : vector_product worldX ⟨0, 0, 1⟩ ≠ 0 := by
  rw [cross_X_001]
  intro h
  have := congrArg Vec3.y h
  simp only [Vec3.zero_def] at this
  norm_num at this

theorem degenerate_axis_001 : degenerate_axis ⟨0, 0, 1⟩ = ⟨0, -1, 0⟩ := by
  unfold degenerate_axis
  rw [if_neg cross_X_001_ne_zero, cross_X_001]

theorem solver_axis_001_00m3 : solver_axis ⟨0, 0, 1⟩ ⟨0, 0, -3⟩ = ⟨0, -1, 0⟩ := by
  unfold solver_axis
  rw [if_pos cross_001_00m3, degenerate_axis_001]

theorem sum_001_00m3 : (⟨0, 0, 1⟩ : Vec3) + ⟨0, 0, -3⟩ = ⟨0, 0, -2⟩ := by
  apply Vec3.ext_components <;> simp only [Vec3.add_def] <;> norm_num

theorem angle_correction_001_00m3 :
    solver_angle_correction ⟨0, 0, 1⟩ ⟨0, 0, -3⟩ = Real.pi := by
  unfold solver_angle_correction
  rw [if_pos cross_001_00m3, sum_001_00m3, norm_00m2, norm_001, if_pos]
  norm_num

theorem angle_between_001_00m3 :
    angle_between_vectors ⟨0, 0, 1⟩ ⟨0, 0, -3⟩ = Real.pi := by
  unfold angle_between_vectors
  rw [norm_001, norm_00m3]
  rw [show (⟨0, 0, 1⟩ : Vec3).dot ⟨0, 0, -3⟩ = -3 by unfold Vec3.dot; norm_num]
  rw [show (-3 : ℝ) / (1 * 3) = -1 by norm_num, Real.arccos_neg_one]

theorem rot_angle_001_00m3 :
    solver_rot_angle ⟨0, 0, 1⟩ ⟨0, 0, -3⟩ = Real.pi := by
  unfold solver_rot_angle
  rw [angle_between_001_00m3, pymod_neg_pi, angle_correction_001_00m3, zero_add]

theorem rotApply_pi_0m10_00m3 :
    rotApply Real.pi ⟨0, -1, 0⟩ ⟨0, 0, -3⟩ = ⟨0, 0, 3⟩ := by
  unfold rotApply unit_vector
  rw [norm_0m10]
  apply Vec3.ext_components <;>
    simp only [vector_product, Vec3.add_def, Vec3.smul_def, Vec3.dot,
      Real.cos_pi, Real.sin_pi] <;> norm_num

theorem cross_001_100 : vector_product ⟨0, 0, 1⟩ ⟨1, 0, 0⟩ = ⟨0, 1, 0⟩ := by
  apply Vec3.ext_components <;> simp only [vector_product] <;> norm_num

theorem cross_001_100_ne_zero : vector_product ⟨0, 0, 1⟩ ⟨1, 0, 0⟩ ≠ 0 := by
  rw [cross_001_100]
  intro h
  exact one_ne_zero (congrArg Vec3.y h)

/-- C2 (amended) — Direction (anti-alignment) contract: for every pair of
anchors whose directions have a non-zero cross product, `solve` succeeds and
the transformed slave direction is `-(|slave.dir|/|master.dir|) •
master.direction` — anti-parallel to the master direction, with the slave
direction's length; the caller-supplied angle rotation about
`master.direction` fixes this vector, and it equals `-master.direction`
exactly when the two norms agree. -/
theorem claim_C2_direction_contract (m s : Anchor) (angle distance : ℝ)
    (h : vector_product m.direction s.direction ≠ 0) :
    transformation_from_2_anchors m s angle distance
      = .ok (transformation_from_2_anchors_mat m s angle distance)
    ∧ (transform_anchor s
        (transformation_from_2_anchors_mat m s angle distance)).direction
      = (-(s.direction.norm / m.direction.norm)) • m.direction := by
  have hdm : m.direction ≠ 0 := by
    intro h0
    exact h (by rw [h0]; exact vector_product_zero_left _)
  refine ⟨transformation_from_2_anchors_ok s angle distance hdm, ?_⟩
  rw [transform_anchor_solve_mat, rotApply_opposition h,
    rotApply_smul_axis (radians angle) hdm]

/-- Witness for C2 (amended) at a concrete non-collinear input. -/
theorem claim_C2_direction_contract_witness :
    vector_product (⟨0, 0, 1⟩ : Vec3) ⟨1, 0, 0⟩ ≠ 0 ∧
    (transformation_from_2_anchors ⟨⟨0, 0, 0⟩, ⟨0, 0, 1⟩⟩ ⟨⟨4, 5, 6⟩, ⟨1, 0, 0⟩⟩ 30 1
        = .ok (transformation_from_2_anchors_mat ⟨⟨0, 0, 0⟩, ⟨0, 0, 1⟩⟩
            ⟨⟨4, 5, 6⟩, ⟨1, 0, 0⟩⟩ 30 1)
      ∧ (transform_anchor ⟨⟨4, 5, 6⟩, ⟨1, 0, 0⟩⟩
          (transformation_from_2_anchors_mat ⟨⟨0, 0, 0⟩, ⟨0, 0, 1⟩⟩
            ⟨⟨4, 5, 6⟩, ⟨1, 0, 0⟩⟩ 30 1)).direction
        = (-((⟨1, 0, 0⟩ : Vec3).norm / (⟨0, 0, 1⟩ : Vec3).norm)) • ⟨0, 0, 1⟩) :=
  ⟨cross_001_100_ne_zero,
    claim_C2_direction_contract ⟨⟨0, 0, 0⟩, ⟨0, 0, 1⟩⟩ ⟨⟨4, 5, 6⟩, ⟨1, 0, 0⟩⟩ 30 1
      cross_001_100_ne_zero⟩

/-- Counterexample to C2 as stated: for exactly anti-parallel directions with
`|slave.dir| = 3 |master.dir|` (angle 0, distance 0), the code rotates the
slave direction to `(0, 0, 3)` — aligned with the master — whereas the claim
demands `-master.direction` rotated by the angle, i.e. `(0, 0, -1)`. -/
theorem claim_C2_counterexample :
    (transform_anchor ⟨⟨0, 0, 0⟩, ⟨0, 0, -3⟩⟩
        (transformation_from_2_anchors_mat ⟨⟨0, 0, 0⟩, ⟨0, 0, 1⟩⟩
          ⟨⟨0, 0, 0⟩, ⟨0, 0, -3⟩⟩ 0 0)).direction
      = ⟨0, 0, 3⟩
    ∧ (rotation_matrix (radians 0) ⟨0, 0, 1⟩).applyLin (-(⟨0, 0, 1⟩ : Vec3))
      = ⟨0, 0, -1⟩
    ∧ (⟨0, 0, 3⟩ : Vec3) ≠ ⟨0, 0, -1⟩ := by
  refine ⟨?_, ?_, ?_⟩
  · rw [transform_anchor_solve_mat]
    dsimp only
    rw [rot_angle_001_00m3, solver_axis_001_00m3, rotApply_pi_0m10_00m3,
      radians_zero, rotApply_zero_angle]
  · rw [rotation_applyLin, radians_zero, rotApply_zero_angle]
    apply Vec3.ext_components <;> simp only [Vec3.neg_def] <;> norm_num
  · intro h
    have := congrArg Vec3.z h
    norm_num at this

/-- C5 — Idempotence: for anchors that are already mated (equal positions,
exactly opposite directions) with non-zero master direction, `solve` with
`angle = 0, distance = 0` returns the exact identity transform, and applying
the identity transform to the slave anchor changes nothing. -/
theorem claim_C5_idempotence (m s : Anchor)
    (hpos : s.position = m.position) (hdir : s.direction = -m.direction)
    (hm : m.direction ≠ 0) :
    transformation_from_2_anchors m s 0 0 = .ok Mat34.identity
    ∧ transform_anchor s Mat34.identity = s := by
  refine ⟨?_, transform_anchor_identity s⟩
  rw [transformation_from_2_anchors_ok s 0 0 hm]
  congr 1
  unfold transformation_from_2_anchors_mat
  rw [hpos, hdir]
  dsimp only
  have hcross : vector_product m.direction (-m.direction) = 0 :=
    vector_product_neg_self _
  have hcor : solver_angle_correction m.direction (-m.direction) = 0 := by
    unfold solver_angle_correction
    rw [if_pos hcross, Vec3.add_neg_self', Vec3.norm_zero',
      if_neg (not_lt.mpr (Vec3.norm_nonneg' _))]
  have hrot : solver_rot_angle m.direction (-m.direction) = 0 := by
    unfold solver_rot_angle
    rw [angle_between_neg_self hm, pymod_neg_pi, hcor, add_zero]
  simp only [hrot, radians_zero, rotation_matrix_zero, Mat4.identity_mul,
    Mat4.mul_identity, Vec3.zero_smul', Vec3.add_zero',
    translation_mul_translation, Vec3.add_neg_self', translation_zero,
    rows3_mul4]
  rfl

/-- Witness for C5 at a concrete mated pair. -/
theorem claim_C5_idempotence_witness :
    (⟨0, 0, -1⟩ : Vec3) = -(⟨0, 0, 1⟩ : Vec3) ∧
    (transformation_from_2_anchors ⟨⟨1, 2, 3⟩, ⟨0, 0, 1⟩⟩
        ⟨⟨1, 2, 3⟩, ⟨0, 0, -1⟩⟩ 0 0 = .ok Mat34.identity
      ∧ transform_anchor ⟨⟨1, 2, 3⟩, ⟨0, 0, -1⟩⟩ Mat34.identity
        = ⟨⟨1, 2, 3⟩, ⟨0, 0, -1⟩⟩) := by
  have hdir : (⟨0, 0, -1⟩ : Vec3) = -(⟨0, 0, 1⟩ : Vec3) := by
    apply Vec3.ext_components <;> simp only [Vec3.neg_def] <;> norm_num
  exact ⟨hdir,
    claim_C5_idempotence ⟨⟨1, 2, 3⟩, ⟨0, 0, 1⟩⟩ ⟨⟨1, 2, 3⟩, ⟨0, 0, -1⟩⟩
      rfl hdir vec001_ne_zero⟩

theorem Vec3.dot_smul_right (a : Vec3) (c : ℝ) (b : Vec3) :
    a.dot (c • b) = c * a.dot b := by
  simp only [Vec3.dot, Vec3.smul_def]; ring

/-- If the cross product vanishes and `dm ≠ 0`, the two vectors are
collinear: `ds` is the multiple `(dm·ds)/(dm·dm)` of `dm`. -/
theorem collinear_of_cross_eq_zero {dm ds : Vec3}
    (h : vector_product dm ds = 0) (hdm : dm ≠ 0) :
    ds = (dm.dot ds / dm.dot dm) • dm := by
  have hA : dm.dot dm ≠ 0 := ne_of_gt (Vec3.dot_self_pos hdm)
  have h1 : dm.y * ds.z - dm.z * ds.y = 0 := by
    have hx := congrArg Vec3.x h
    simpa [vector_product, Vec3.zero_def] using hx
  have h2 : dm.z * ds.x - dm.x * ds.z = 0 := by
    have hy := congrArg Vec3.y h
    simpa [vector_product, Vec3.zero_def] using hy
  have h3 : dm.x * ds.y - dm.y * ds.x = 0 := by
    have hz := congrArg Vec3.z h
    simpa [vector_product, Vec3.zero_def] using hz
  have hA' : dm.x * dm.x + dm.y * dm.y + dm.z * dm.z ≠ 0 := by
    unfold Vec3.dot at hA; exact hA
  apply Vec3.ext_components <;>
    simp only [Vec3.smul_def, Vec3.dot] <;> field_simp
  · linear_combination (-(dm.y)) * h3 + dm.z * h2
  · linear_combination dm.x * h3 + (-(dm.z)) * h1
  · linear_combination (-(dm.x)) * h2 + dm.y * h1

theorem smul_add_one_smul (c : ℝ) (dm : Vec3) :
    dm + c • dm = (1 + c) • dm := by
  apply Vec3.ext_components <;>
    simp only [Vec3.add_def, Vec3.smul_def] <;> ring

/-- C3 (amended) — degenerate-branch rotation correction: when the two
directions are exactly collinear (cross product zero, `dm ≠ 0`), the solver's
`angle_correction` is π for same-way directions (positive dot product), 0 for
anti-parallel directions with `|slave.dir| ≤ 2 |master.dir|`, and — contrary
to the original claim — π again for anti-parallel directions with
`|slave.dir| > 2 |master.dir|`; all three outcomes are decided by comparing
`|master.dir + slave.dir|` against `|master.dir|`. -/
theorem claim_C3_angle_correction (dm ds : Vec3)
    (hcross : vector_product dm ds = 0) (hdm : dm ≠ 0) :
    (0 < dm.dot ds → solver_angle_correction dm ds = Real.pi)
    ∧ (dm.dot ds < 0 → ds.norm ≤ 2 * dm.norm →
        solver_angle_correction dm ds = 0)
    ∧ (dm.dot ds < 0 → 2 * dm.norm < ds.norm →
        solver_angle_correction dm ds = Real.pi) := by
  have hA : 0 < dm.dot dm := Vec3.dot_self_pos hdm
  have hnm : 0 < dm.norm := Vec3.norm_pos hdm
  have hcol : ds = (dm.dot ds / dm.dot dm) • dm :=
    collinear_of_cross_eq_zero hcross hdm
  set c := dm.dot ds / dm.dot dm with hc
  have hnorm_sum : (dm + ds).norm = |1 + c| * dm.norm := by
    rw [hcol, smul_add_one_smul, Vec3.norm_smul']
  have hnorm_ds : ds.norm = |c| * dm.norm := by
    rw [hcol, Vec3.norm_smul']
  unfold solver_angle_correction
  rw [if_pos hcross, hnorm_sum]
  refine ⟨?_, ?_, ?_⟩
  · intro hD
    have hcpos : 0 < c := div_pos hD hA
    rw [if_pos (by rw [abs_of_pos (by linarith : (0:ℝ) < 1 + c)]; nlinarith)]
  · intro hD hle
    have hcneg : c < 0 := div_neg_of_neg_of_pos hD hA
    rw [hnorm_ds] at hle
    have habs : |c| ≤ 2 := le_of_mul_le_mul_right (by linarith) hnm
    have hcge : -2 ≤ c := by
      have := (abs_le.mp habs).1; linarith
    rw [if_neg]
    have habs1 : |1 + c| ≤ 1 := abs_le.mpr ⟨by linarith, by linarith⟩
    push_neg
    nlinarith
  · intro hD hgt
    have hcneg : c < 0 := div_neg_of_neg_of_pos hD hA
    rw [hnorm_ds] at hgt
    have h2 : 2 < |c| := lt_of_mul_lt_mul_right hgt (le_of_lt hnm)
    rw [abs_of_neg hcneg] at h2
    have hclt : c < -2 := by linarith
    rw [if_pos]
    rw [abs_of_neg (by linarith : 1 + c < 0)]
    nlinarith

/-- Counterexample to C3 as stated: the anchors' directions `(0,0,1)` and
`(0,0,-3)` are exactly anti-parallel (zero cross product, negative dot
product), yet the solver's `angle_correction` is π, not the claimed 0,
because `|(0,0,1)+(0,0,-3)| = 2 > 1 = |(0,0,1)|`. -/
theorem claim_C3_counterexample :
    vector_product ⟨0, 0, 1⟩ ⟨0, 0, -3⟩ = 0
    ∧ (⟨0, 0, 1⟩ : Vec3).dot ⟨0, 0, -3⟩ < 0
    ∧ solver_angle_correction ⟨0, 0, 1⟩ ⟨0, 0, -3⟩ ≠ 0 := by
  refine ⟨cross_001_00m3, by unfold Vec3.dot; norm_num, ?_⟩
  rw [angle_correction_001_00m3]
  exact Real.pi_ne_zero

/-- Witness for C3 (amended) at the concrete collinear pair
`(0,0,1)`, `(0,0,-3)`. -/
theorem claim_C3_angle_correction_witness :
    vector_product ⟨0, 0, 1⟩ ⟨0, 0, -3⟩ = 0 ∧ (⟨0, 0, 1⟩ : Vec3) ≠ 0 ∧
    ((0 < (⟨0, 0, 1⟩ : Vec3).dot ⟨0, 0, -3⟩ →
        solver_angle_correction ⟨0, 0, 1⟩ ⟨0, 0, -3⟩ = Real.pi)
      ∧ ((⟨0, 0, 1⟩ : Vec3).dot ⟨0, 0, -3⟩ < 0 →
          (⟨0, 0, -3⟩ : Vec3).norm ≤ 2 * (⟨0, 0, 1⟩ : Vec3).norm →
          solver_angle_correction ⟨0, 0, 1⟩ ⟨0, 0, -3⟩ = 0)
      ∧ ((⟨0, 0, 1⟩ : Vec3).dot ⟨0, 0, -3⟩ < 0 →
          2 * (⟨0, 0, 1⟩ : Vec3).norm < (⟨0, 0, -3⟩ : Vec3).norm →
          solver_angle_correction ⟨0, 0, 1⟩ ⟨0, 0, -3⟩ = Real.pi)) :=
  ⟨cross_001_00m3, vec001_ne_zero,
    claim_C3_angle_correction ⟨0, 0, 1⟩ ⟨0, 0, -3⟩ cross_001_00m3 vec001_ne_zero⟩

/-- C4 (amended) — zero-master error policy: whenever `master.direction` has
zero norm, `transformation_from_2_anchors` fails with the explicit
assertion error on the normalized master direction's norm ("Unit anchor
direction norm should be 1 +- tolerance"); the counterexample shows the
stronger blanket claim (every degenerate input surfaced as an error) is
false for a zero slave direction. -/
theorem claim_C4_zero_master_error (m s : Anchor) (angle distance : ℝ)
    (hm : m.direction = 0) :
    transformation_from_2_anchors m s angle distance
      = .error (.assertionError
          "Unit anchor direction norm should be 1 +- tolerance") :=
  transformation_from_2_anchors_err s angle distance hm

/-- Witness for C4 (amended) at a concrete zero master direction. -/
theorem claim_C4_zero_master_error_witness :
    (Anchor.mk ⟨0, 0, 0⟩ ⟨0, 0, 0⟩).direction = 0 ∧
    transformation_from_2_anchors ⟨⟨0, 0, 0⟩, ⟨0, 0, 0⟩⟩ ⟨⟨0, 0, 0⟩, ⟨0, 0, 1⟩⟩ 0 0
      = .error (.assertionError
          "Unit anchor direction norm should be 1 +- tolerance") :=
  ⟨rfl, claim_C4_zero_master_error ⟨⟨0, 0, 0⟩, ⟨0, 0, 0⟩⟩ ⟨⟨0, 0, 0⟩, ⟨0, 0, 1⟩⟩
    0 0 rfl⟩

/-- Counterexample to C4 as stated: a zero slave direction is a degenerate
input (in floating point it NaN-contaminates the transform), yet the solver
returns a transform normally instead of surfacing an error. -/
theorem claim_C4_counterexample :
    (Anchor.mk ⟨0, 0, 0⟩ ⟨0, 0, 0⟩).direction = 0 ∧
    transformation_from_2_anchors ⟨⟨0, 0, 0⟩, ⟨0, 0, 1⟩⟩ ⟨⟨0, 0, 0⟩, ⟨0, 0, 0⟩⟩ 0 0
      = .ok (transformation_from_2_anchors_mat ⟨⟨0, 0, 0⟩, ⟨0, 0, 1⟩⟩
          ⟨⟨0, 0, 0⟩, ⟨0, 0, 0⟩⟩ 0 0) :=
  ⟨rfl, transformation_from_2_anchors_ok ⟨⟨0, 0, 0⟩, ⟨0, 0, 0⟩⟩ 0 0 vec001_ne_zero⟩

/-- C6 (amended) — degenerate-axis tie-break: the replacement axis is always
perpendicular to `master.direction`, and it is the cross of the world X axis
with `master.direction` (in that operand order), falling back to the cross of
the world Y axis with `master.direction` when the X cross is the zero
vector.  The original claim's operand order (`master.direction × X`) is
refuted by the counterexample. -/
theorem claim_C6_degenerate_axis (dm : Vec3) :
    (degenerate_axis dm).dot dm = 0
    ∧ (vector_product worldX dm ≠ 0 →
        degenerate_axis dm = vector_product worldX dm)
    ∧ (vector_product worldX dm = 0 →
        degenerate_axis dm = vector_product worldY dm) := by
  refine ⟨?_, ?_, ?_⟩
  · unfold degenerate_axis
    by_cases h : vector_product worldX dm = 0
    · rw [if_pos h]; exact vector_product_dot_right worldY dm
    · rw [if_neg h]; exact vector_product_dot_right worldX dm
  · intro h; unfold degenerate_axis; rw [if_neg h]
  · intro h; unfold degenerate_axis; rw [if_pos h]

/-- Witness for C6 (amended) at the concrete master direction `(0, 0, 1)`. -/
theorem claim_C6_degenerate_axis_witness :
    vector_product worldX ⟨0, 0, 1⟩ ≠ 0 ∧
    degenerate_axis ⟨0, 0, 1⟩ = vector_product worldX ⟨0, 0, 1⟩ :=
  ⟨cross_X_001_ne_zero,
    (claim_C6_degenerate_axis ⟨0, 0, 1⟩).2.1 cross_X_001_ne_zero⟩

/-- Counterexample to C6 as stated: for a master direction `(0, 0, 1)` the
axis actually used is `cross(X, master.direction) = (0, -1, 0)`, whereas the
claimed `cross(master.direction, X)` is `(0, 1, 0)` — the opposite vector. -/
theorem claim_C6_counterexample :
    degenerate_axis ⟨0, 0, 1⟩ = ⟨0, -1, 0⟩
    ∧ vector_product ⟨0, 0, 1⟩ worldX = ⟨0, 1, 0⟩
    ∧ (⟨0, -1, 0⟩ : Vec3) ≠ ⟨0, 1, 0⟩ := by
  refine ⟨degenerate_axis_001, ?_, ?_⟩
  · apply Vec3.ext_components <;>
      simp only [vector_product, worldX] <;> norm_num
  · intro h
    have := congrArg Vec3.y h
    norm_num at this

/-- C7 — Anchor propagator contract: `transform_anchor` sends the position
through the full affine map of the 3×4 matrix (rotation block plus
translation column) and the direction through the rotation block only, with
no translation added; being a pure function of its arguments, it leaves the
input anchor record untouched. -/
theorem claim_C7_transform_anchor (anchor : Anchor) (M : Mat34) :
    transform_anchor anchor M
      = ⟨spec_full_affine_map M anchor.position,
         spec_rotation_block_map M anchor.direction⟩ := by
  unfold transform_anchor spec_full_affine_map spec_rotation_block_map
  dsimp only
  congr 1 <;> apply Vec3.ext_components <;> dsimp <;> ring

/-- C9 — the degenerate-branch replacement axis is never the zero vector when
`master.direction` is non-zero, so `rotation_matrix` is never invoked with a
zero axis from that branch. -/
theorem claim_C9_degenerate_axis_ne_zero (dm : Vec3) (h : dm ≠ 0) :
    degenerate_axis dm ≠ 0 := by
  unfold degenerate_axis
  by_cases hx : vector_product worldX dm = 0
  · rw [if_pos hx]
    have hz : dm.z = 0 := by
      have := congrArg Vec3.y hx
      simpa [vector_product, worldX, Vec3.zero_def] using this
    have hy : dm.y = 0 := by
      have := congrArg Vec3.z hx
      simpa [vector_product, worldX, Vec3.zero_def] using this
    intro hcon
    have hxz : dm.x = 0 := by
      have := congrArg Vec3.z hcon
      simpa [vector_product, worldY, Vec3.zero_def] using this
    exact h (Vec3.ext_components hxz hy hz)
  · rw [if_neg hx]
    exact hx

/-- Witness for C9 at the concrete master direction `(0, 0, 1)`. -/
theorem claim_C9_degenerate_axis_ne_zero_witness :
    (⟨0, 0, 1⟩ : Vec3) ≠ 0 ∧ degenerate_axis ⟨0, 0, 1⟩ ≠ 0 :=
  ⟨vec001_ne_zero, claim_C9_degenerate_axis_ne_zero ⟨0, 0, 1⟩ vec001_ne_zero⟩

/-- C8 — Aggregator error contract: `compound` fails (with the `ValueError`
the spec's taxonomy names `InvalidShapeError`) precisely when the input list
contains an element that is not a `ccad.model.Shape`; otherwise it returns
the compound solid built from the shapes.  As a pure function it never
mutates its input list. -/
theorem claim_C8_compound (shapes : List CcadObj) :
    compound shapes
        = .error (.valueError
            "The shapes list should only contains ccad.model.Shape(s)")
      ↔ ∃ t ∈ shapes, t.isShape = false := by
  unfold compound
  by_cases h : shapes.all CcadObj.isShape = true
  · rw [if_pos h]
    simp only [List.all_eq_true] at h
    constructor
    · intro hcon
      exact absurd hcon (by simp)
    · rintro ⟨t, ht, hfalse⟩
      rw [h t ht] at hfalse
      cases hfalse
  · rw [if_neg h]
    simp only [List.all_eq_true, not_forall] at h
    constructor
    · intro _
      obtain ⟨t, ht, hfalse⟩ := h
      exact ⟨t, ht, by simpa using hfalse⟩
    · intro _
      rfl

/-- Witness for C8: a list with a non-shape element makes `compound` fail. -/
theorem claim_C8_compound_witness :
    compound [CcadObj.shape 0, CcadObj.nonShape 1]
      = .error (.valueError
          "The shapes list should only contains ccad.model.Shape(s)") :=
  (claim_C8_compound [CcadObj.shape 0, CcadObj.nonShape 1]).mpr
    ⟨CcadObj.nonShape 1, by simp, rfl⟩

/-- C10 — the solver reads only the `"position"` and `"direction"` entries of
its two anchor dictionaries: any two pairs of dictionaries that agree on
those two keys produce identical results, whatever other keys they carry;
the embedding as a pure function returns only the fresh matrix, mirroring
the source's absence of any write to its arguments. -/
theorem claim_C10_reads_only_position_direction
    (m1 m2 s1 s2 : AnchorDict) (angle distance : ℝ)
    (hmp : m1.get ("position") = m2.get ("position"))
    (hmd : m1.get ("direction") = m2.get ("direction"))
    (hsp : s1.get ("position") = s2.get ("position"))
    (hsd : s1.get ("direction") = s2.get ("direction")) :
    transformation_from_2_anchors_dict m1 s1 angle distance
      = transformation_from_2_anchors_dict m2 s2 angle distance := by
  unfold transformation_from_2_anchors_dict
  rw [hmp, hmd, hsp, hsd]

/-- Witness for C10: a dictionary with an extra `"extra"` key yields the same
result as one without it. -/
theorem claim_C10_reads_only_position_direction_witness :
    AnchorDict.get
        [("extra", ⟨9, 9, 9⟩), ("position", ⟨0, 0, 0⟩), ("direction", ⟨0, 0, 1⟩)]
        "position"
      = AnchorDict.get [("position", ⟨0, 0, 0⟩), ("direction", ⟨0, 0, 1⟩)]
        "position" ∧
    transformation_from_2_anchors_dict
        [("extra", ⟨9, 9, 9⟩), ("position", ⟨0, 0, 0⟩), ("direction", ⟨0, 0, 1⟩)]
        [("position", ⟨1, 1, 1⟩), ("direction", ⟨1, 0, 0⟩)] 0 0
      = transformation_from_2_anchors_dict
        [("position", ⟨0, 0, 0⟩), ("direction", ⟨0, 0, 1⟩)]
        [("position", ⟨1, 1, 1⟩), ("direction", ⟨1, 0, 0⟩)] 0 0 :=
  ⟨rfl,
    claim_C10_reads_only_position_direction
      [("extra", ⟨9, 9, 9⟩), ("position", ⟨0, 0, 0⟩), ("direction", ⟨0, 0, 1⟩)]
      [("position", ⟨0, 0, 0⟩), ("direction", ⟨0, 0, 1⟩)]
      [("position", ⟨1, 1, 1⟩), ("direction", ⟨1, 0, 0⟩)]
      [("position", ⟨1, 1, 1⟩), ("direction", ⟨1, 0, 0⟩)] 0 0
      rfl rfl rfl rfl⟩
